import Mathlib

/-!
Shallow embedding of the data-cleaning and aggregation pipeline of
`app_amazon_india_pra2.py` (an Amazon-India product analytics dashboard).

A pandas cell is modelled by `Cell`: missing (`NaN`), a string, or a number.
Floating point numbers are modelled as rationals; every numeric operation the
pipeline performs (division by a constant, comparison against bin edges,
summation, mean) is exact on the inputs the claims touch, so the rational
model is faithful for them.  A frame is a list of rows in order; fallible
pandas operations (strict parses that raise) are modelled with `Except`.
-/

namespace PRA2

/-- A pandas cell: missing (NaN), a raw string, or a numeric value. -/
inductive Cell where
  | na : Cell
  | s : String → Cell
  | n : ℚ → Cell
deriving DecidableEq, Repr

/-- Digits of a decimal numeral folded into a natural number. -/
def natOfDigits (cs : List Char) : ℕ :=
  cs.foldl (fun a c => a * 10 + (c.toNat - 48)) 0

/-- Model of the Python builtin `float` applied to a string, restricted to
plain decimal literals: an optional sign followed by digits with at most one
decimal point and at least one digit in total.  Returns `none` where Python
raises `ValueError`. -/
def pyFloat? (str : String) : Option ℚ :=
  let sign : ℚ := if str.startsWith "-" then -1 else 1
  let body := if str.startsWith "-" || str.startsWith "+" then str.drop 1 else str
  match body.splitOn "." with
  | [intPart] =>
      if intPart.length > 0 && intPart.all Char.isDigit then
        some (sign * natOfDigits intPart.data)
      else none
  | [intPart, fracPart] =>
      if (intPart.length + fracPart.length > 0)
          && intPart.all Char.isDigit && fracPart.all Char.isDigit then
        some (sign * ((natOfDigits intPart.data : ℚ) +
          (natOfDigits fracPart.data : ℚ) / (10 ^ fracPart.length)))
      else none
  | _ => none

/-- Model of `re.sub(r"[₹,]", "", s)`: delete every rupee sign and comma. -/
def stripCurrency (str : String) : String :=
  ⟨str.data.filter (fun c => c ≠ '₹' && c ≠ ',')⟩

/-- Model of `s.rstrip("%")`: delete every trailing percent sign. -/
def rstripPercent (str : String) : String :=
  ⟨((str.data.reverse.dropWhile (fun c => c = '%'))).reverse⟩

/-- The function `clean_price`: if the cell is a string, strip the rupee sign and commas
and parse it as a float (raising on failure); otherwise pass it through. -/
def clean_price (c : Cell) : Except Unit Cell :=
  match c with
  | Cell.s v =>
      match pyFloat? (stripCurrency v) with
      | some q => Except.ok (Cell.n q)
      | none => Except.error ()
  | _ => Except.ok c

/-- Division of a numeric cell by a constant; non-numeric cells unchanged. -/
def divCell (c : Cell) (d : ℚ) : Cell :=
  match c with
  | Cell.n q => Cell.n (q / d)
  | x => x

/-- The function `to_euro`: a string cell is cleaned with `clean_price` and divided
by the fixed exchange rate 95; any non-string cell passes through unchanged. -/
def to_euro (c : Cell) : Except Unit Cell :=
  match c with
  | Cell.s v => do
      let p ← clean_price (Cell.s v)
      Except.ok (divCell p 95)
  | _ => Except.ok c

/-- Model of `df["discount_percentage"].str.rstrip("%").astype(float)` applied to one
cell: the `.str` accessor turns non-string cells into NaN, and `astype(float)`
raises on a string that does not parse. -/
def pctParse (c : Cell) : Except Unit Cell :=
  match c with
  | Cell.s v =>
      match pyFloat? (rstripPercent v) with
      | some q => Except.ok (Cell.n q)
      | none => Except.error ()
  | _ => Except.ok Cell.na

/-- First level of `category.str.split("|", expand=True)`: the text before
the first pipe for a string cell, NaN for any other cell. -/
def categoryLevel1Of (c : Cell) : Cell :=
  match c with
  | Cell.s v =>
      match v.splitOn "|" with
      | [] => Cell.na
      | p :: _ => Cell.s p
  | _ => Cell.na

/-- A raw input row of `amazon.csv` as loaded by `pd.read_csv`. -/
structure RawRow where
  product_id : Cell
  product_name : Cell
  category : Cell
  actual_price : Cell
  discounted_price : Cell
  discount_percentage : Cell
  rating : Cell
  rating_count : Cell
deriving DecidableEq, Repr

/-- A row after the conversions done inside `load_data` (currency columns in
euro, percentage parsed, category level 1 attached). -/
structure Row1 where
  product_id : Cell
  product_name : Cell
  category : Cell
  actual_price : Cell
  discounted_price : Cell
  discount_percentage : Cell
  rating : Cell
  rating_count : Cell
  category_level_1 : Cell
deriving DecidableEq, Repr

/-- The per-row conversions of `load_data`: `to_euro` on the two price
columns, the strict percent parse, and the category decomposition. -/
def convertRow (r : RawRow) : Except Unit Row1 := do
  let ap ← to_euro r.actual_price
  let dp ← to_euro r.discounted_price
  let pct ← pctParse r.discount_percentage
  Except.ok
    { product_id := r.product_id
      product_name := r.product_name
      category := r.category
      actual_price := ap
      discounted_price := dp
      discount_percentage := pct
      rating := r.rating
      rating_count := r.rating_count
      category_level_1 := categoryLevel1Of r.category }

/-- Model of `df["category_level_1"].value_counts()[v]`: occurrences of the string
value `v` in the decomposed frame (`value_counts` ignores NaN). -/
def valueCount (rows : List Row1) (v : String) : ℕ :=
  rows.countP (fun r => decide (r.category_level_1 = Cell.s v))

/-- Membership test of `df["category_level_1"].isin(categories_to_keep)`
where `categories_to_keep` are the values with `value_counts >= 20`;
a NaN level never belongs to the keep list. -/
def keepRow (rows : List Row1) (r : Row1) : Bool :=
  match r.category_level_1 with
  | Cell.s v => decide (20 ≤ valueCount rows v)
  | _ => false

/-- The function `load_data` without the file read: convert every row (any strict parse
failure aborts the whole load), then keep exactly the rows whose
`category_level_1` value occurs at least 20 times in the converted frame. -/
def load_data (rows : List RawRow) : Except Unit (List Row1) :=
  match rows.mapM convertRow with
  | Except.error e => Except.error e
  | Except.ok conv => Except.ok (conv.filter (keepRow conv))

/-- Model of `pd.to_numeric(col, errors="coerce")` on one cell: numbers and NaN are
unchanged, a string parses leniently (unparsable becomes NaN). -/
def toNumericCell (c : Cell) : Cell :=
  match c with
  | Cell.n v => Cell.n v
  | Cell.na => Cell.na
  | Cell.s v =>
      match pyFloat? v with
      | some q => Cell.n q
      | none => Cell.na

/-- Model of `col.fillna(d)` on one cell. -/
def fillnaCell (c d : Cell) : Cell :=
  match c with
  | Cell.na => d
  | x => x

/-- Model of `pd.cut` over a finite edge list (left-exclusive, right-inclusive
intervals, the pandas default without `include_lowest`): the label of the
first interval `(lo, hi]` containing the value, NaN outside every interval. -/
def pdCut (edges : List ℚ) (labels : List String) (v : ℚ) : Option String :=
  match edges, labels with
  | lo :: hi :: es, lab :: ls =>
      if lo < v ∧ v ≤ hi then some lab else pdCut (hi :: es) ls v
  | _, _ => none

/-- Model of `pd.cut` whose last edge is `np.inf`: as `pdCut`, but the final interval
`(lo, ∞)` has no upper bound. -/
def pdCutTopInf (edges : List ℚ) (labels : List String) (v : ℚ) : Option String :=
  match edges, labels with
  | [lo], [lab] => if lo < v then some lab else none
  | lo :: hi :: es, lab :: ls =>
      if lo < v ∧ v ≤ hi then some lab else pdCutTopInf (hi :: es) ls v
  | _, _ => none

/-- The `price_range` bucket of `discounted_price`: bins `[0,20,50,100,200,inf]`. -/
def priceRangeOf (v : ℚ) : Option String :=
  pdCutTopInf [0, 20, 50, 100, 200]
    ["Molt Baix (<20)", "Baix (20-50)", "Mitjà (50-100)",
     "Alt (100-200)", "Molt Alt (>200)"] v

/-- The `rating_category` bucket of `rating`: bins `[0,3,4,4.5,5]`. -/
def ratingCategoryOf (v : ℚ) : Option String :=
  pdCut [0, 3, 4, 4.5, 5]
    ["Baix (<3)", "Mitjà (3-4)", "Bo (4-4.5)", "Excel·lent (>4.5)"] v

/-- The `discount_range` bucket of `discount_percentage`: bins `[0,10,25,50,100]`. -/
def discountRangeOf (v : ℚ) : Option String :=
  pdCut [0, 10, 25, 50, 100]
    ["Baix (<10%)", "Mitjà (10-25%)", "Alt (25-50%)", "Molt Alt (>50%)"] v

/-- A row of the cleaned working frame `df_clean` produced by `prepare_data`. -/
structure CleanRow where
  product_id : Cell
  product_name : Cell
  category : Cell
  category_level_1 : Cell
  actual_price : Cell
  discounted_price : Cell
  discount_percentage : Cell
  rating : Cell
  rating_count : Cell
  price_range : Option String
  rating_category : Option String
  discount_range : Option String
  main_category : Cell
deriving DecidableEq, Repr

/-- One row of `prepare_data`: lenient numeric coercion of the five numeric
columns, `fillna(1)` on `rating_count`, `fillna(0)` on `discount_percentage`,
drop of the row when `discounted_price` or `rating` is missing,
`clip(lower=1)` on `rating_count`, the three bucket columns, and
`main_category = category_level_1.fillna(category)`. -/
def prepareRow (r : Row1) : Option CleanRow :=
  let dp := toNumericCell r.discounted_price
  let rt := toNumericCell r.rating
  let pct := fillnaCell (toNumericCell r.discount_percentage) (Cell.n 0)
  let rc := fillnaCell (toNumericCell r.rating_count) (Cell.n 1)
  match dp, rt with
  | Cell.n dpv, Cell.n rtv =>
      some
        { product_id := r.product_id
          product_name := r.product_name
          category := r.category
          category_level_1 := r.category_level_1
          actual_price := toNumericCell r.actual_price
          discounted_price := Cell.n dpv
          discount_percentage := pct
          rating := Cell.n rtv
          rating_count :=
            match rc with
            | Cell.n q => Cell.n (max q 1)
            | x => x
          price_range := priceRangeOf dpv
          rating_category := ratingCategoryOf rtv
          discount_range :=
            match pct with
            | Cell.n q => discountRangeOf q
            | _ => none
          main_category := fillnaCell r.category_level_1 r.category }
  | _, _ => none

/-- The function `prepare_data`: the per-row cleaning applied to the whole frame; rows with
missing `discounted_price` or `rating` are dropped, the rest kept in order. -/
def prepare_data (rows : List Row1) : List CleanRow :=
  rows.filterMap prepareRow

/-- The numeric values of a column, NaN and strings skipped (as pandas
aggregation does). -/
def cellVals (l : List Cell) : List ℚ :=
  l.filterMap (fun c =>
    match c with
    | Cell.n v => some v
    | _ => none)

/-- Column mean with pandas NaN-skipping: NaN (`none`) when no numeric value
is present, otherwise the arithmetic mean of the numeric values. -/
def cellMean (l : List Cell) : Option ℚ :=
  match cellVals l with
  | [] => none
  | vs => some (vs.sum / vs.length)

/-- Column sum with pandas NaN-skipping (an empty or all-NaN column sums
to 0). -/
def cellSum (l : List Cell) : ℚ :=
  (cellVals l).sum

/-- Model of `.round(2)` on an exact value. -/
def round2 (q : ℚ) : ℚ :=
  round (q * 100) / 100

/-- One row of the `cat_stats` aggregate. -/
structure GroupStat where
  main_category : Cell
  meanRating : Option ℚ
  totalRatingCount : ℚ
  meanPrice : Option ℚ
  meanDiscount : Option ℚ
  numProducts : ℕ
deriving DecidableEq, Repr

/-- The aggregate row of one `groupby("main_category")` group: mean `rating`,
sum of `rating_count`, mean `discounted_price`, mean `discount_percentage`
(each mean rounded to 2 decimals) and the count of non-null `product_id`. -/
def statsFor (rows : List CleanRow) (key : Cell) : GroupStat :=
  let g := rows.filter (fun r => decide (r.main_category = key))
  { main_category := key
    meanRating := (cellMean (g.map (fun r => r.rating))).map round2
    totalRatingCount := round2 (cellSum (g.map (fun r => r.rating_count)))
    meanPrice := (cellMean (g.map (fun r => r.discounted_price))).map round2
    meanDiscount := (cellMean (g.map (fun r => r.discount_percentage))).map round2
    numProducts := g.countP (fun r => decide (r.product_id ≠ Cell.na)) }

/-- The grouping keys of `groupby("main_category")`: the distinct non-NaN
values of the column (`groupby` drops NaN keys). -/
def groupKeys (rows : List CleanRow) : List Cell :=
  ((rows.map (fun r => r.main_category)).filter (fun c => decide (c ≠ Cell.na))).dedup

/-- Insert a group into a list kept in descending order of
`totalRatingCount`. -/
def insertDesc (g : GroupStat) : List GroupStat → List GroupStat
  | [] => [g]
  | h :: t =>
      if h.totalRatingCount ≤ g.totalRatingCount then g :: h :: t
      else h :: insertDesc g t

/-- Model of `sort_values("Total Valoracions", ascending=False)`: sort the aggregate
rows in descending order of summed `rating_count`. -/
def sortDesc : List GroupStat → List GroupStat
  | [] => []
  | h :: t => insertDesc h (sortDesc t)

/-- The function `cat_stats`: group the cleaned rows by `main_category`, aggregate, round,
sort descending by total `rating_count` and keep the top `k` groups. -/
def cat_stats (rows : List CleanRow) (k : ℕ) : List GroupStat :=
  (sortDesc ((groupKeys rows).map (statsFor rows))).take k

/-- Spec-side description of one aggregate row, written from the Aggregator
contract, for comparison with `statsFor`: the group of the key of the row is the
set of cleaned rows with that `main_category`; the row carries the mean
`rating`, the summed `rating_count`, the mean `discounted_price` and the mean
`discount_percentage`, each rounded to 2 decimals, and the count of rows with
a non-null `product_id`. -/
def aggSpecStat (rows : List CleanRow) (g : GroupStat) : Prop :=
  let grp := rows.filter fun r => decide (r.main_category = g.main_category)
  g.meanRating = (cellMean (grp.map fun r => r.rating)).map round2 ∧
  g.totalRatingCount = round2 (cellSum (grp.map fun r => r.rating_count)) ∧
  g.meanPrice = (cellMean (grp.map fun r => r.discounted_price)).map round2 ∧
  g.meanDiscount =
    (cellMean (grp.map fun r => r.discount_percentage)).map round2 ∧
  g.numProducts = grp.countP fun r => decide (r.product_id ≠ Cell.na)

/-- The aggregate shown by `category_analysis_charts` (`head(15)`). -/
def categoryAnalysisStats (rows : List CleanRow) : List GroupStat :=
  cat_stats rows 15

/-- The aggregate shown in the comparative expander (`head(12)`). -/
def comparativeStats (rows : List CleanRow) : List GroupStat :=
  cat_stats rows 12

/-- Whole-column mean for the top metric tiles: NaN (`none`) on an empty or
all-NaN column. -/
def overallMean (rows : List CleanRow) (col : CleanRow → Cell) : Option ℚ :=
  cellMean (rows.map col)

/-- The `size_normalized` column of the scatter sample:
`(rc - rc.min()) / (rc.max() - rc.min()) * 17 + 3`; when the denominator is
zero the entry is not a well-defined finite number (0/0, NaN), modelled as
`none`. -/
def sizeNormalized (rcs : List ℚ) : List (Option ℚ) :=
  match rcs.min?, rcs.max? with
  | some mn, some mx =>
      rcs.map (fun rc =>
        if mx = mn then none else some ((rc - mn) / (mx - mn) * 17 + 3))
  | _, _ => []

/-! Concrete fixtures used by the witness and counterexample theorems. -/

/-- A well-formed raw input row. -/
def goodRaw : RawRow :=
  { product_id := Cell.s "p1", product_name := Cell.s "Prod",
    category := Cell.s "A|B", actual_price := Cell.s "₹190",
    discounted_price := Cell.s "₹95", discount_percentage := Cell.s "10%",
    rating := Cell.s "4.0", rating_count := Cell.na }

/-- The row `goodRaw` after the conversions of `load_data`. -/
def goodConv : Row1 :=
  { product_id := Cell.s "p1", product_name := Cell.s "Prod",
    category := Cell.s "A|B", actual_price := Cell.n 2,
    discounted_price := Cell.n 1, discount_percentage := Cell.n 10,
    rating := Cell.s "4.0", rating_count := Cell.na,
    category_level_1 := Cell.s "A" }

/-- The row `goodConv` after `prepare_data`. -/
def goodClean : CleanRow :=
  { product_id := Cell.s "p1", product_name := Cell.s "Prod",
    category := Cell.s "A|B", category_level_1 := Cell.s "A",
    actual_price := Cell.n 2, discounted_price := Cell.n 1,
    discount_percentage := Cell.n 10, rating := Cell.n 4,
    rating_count := Cell.n 1,
    price_range := some "Molt Baix (<20)",
    rating_category := some "Mitjà (3-4)",
    discount_range := some "Baix (<10%)",
    main_category := Cell.s "A" }

/-- 20 copies of `goodRaw`, enough to pass the support-20 category filter. -/
def wpFrame : List RawRow := List.replicate 20 goodRaw

/-- The output of `load_data` on `wpFrame`. -/
def wpOut : List Row1 := List.replicate 20 goodConv

/-- A raw row whose `discount_percentage` string parses to a negative value. -/
def negRaw : RawRow := { goodRaw with discount_percentage := Cell.s "-5%" }

/-- 20 copies of `negRaw`. -/
def negFrame : List RawRow := List.replicate 20 negRaw

/-- The row `negRaw` after the conversions of `load_data`. -/
def negConv : Row1 := { goodConv with discount_percentage := Cell.n (-5) }

/-- The output of `load_data` on `negFrame`. -/
def negOut : List Row1 := List.replicate 20 negConv

/-- The row `negConv` after `prepare_data`: its `discount_percentage` is negative. -/
def negClean : CleanRow :=
  { goodClean with
    discount_percentage := Cell.n (-5)
    discount_range := none }

/-- A raw row whose `discounted_price` string does not parse. -/
def badPriceRaw : RawRow := { goodRaw with discounted_price := Cell.s "₹12a" }

/-- A raw row whose `discount_percentage` string does not parse. -/
def badPctRaw : RawRow := { goodRaw with discount_percentage := Cell.s "1o%" }

/-- A converted row with `discounted_price` exactly 200. -/
def r200 : Row1 := { goodConv with discounted_price := Cell.n 200 }

/-- A converted row with `discounted_price` 200.01. -/
def r20001 : Row1 := { goodConv with discounted_price := Cell.n (20001 / 100) }

/-- The row `r200` after `prepare_data`. -/
def c200 : CleanRow :=
  { goodClean with
    discounted_price := Cell.n 200
    price_range := some "Alt (100-200)" }

/-- The row `r20001` after `prepare_data`. -/
def c20001 : CleanRow :=
  { goodClean with
    discounted_price := Cell.n (20001 / 100)
    price_range := some "Molt Alt (>200)" }

/-- A one-row cleaned frame for the aggregator witness. -/
def rows6 : List CleanRow := [goodClean]

/-! Helper lemmas shared by the claim theorems. -/

/-- Lenient numeric coercion never produces a string cell. -/
theorem toNumericCell_shape (c : Cell) :
    toNumericCell c = Cell.na ∨ ∃ q : ℚ, toNumericCell c = Cell.n q := by
  cases c with
  | na => exact Or.inl rfl
  | n q => exact Or.inr ⟨q, rfl⟩
  | s v =>
      rcases h : pyFloat? v with _ | q
      · exact Or.inl (by simp [toNumericCell, h])
      · exact Or.inr ⟨q, by simp [toNumericCell, h]⟩

/-- Coerce-then-`fillna(1)` always yields a numeric cell. -/
theorem coerceFillOne (c : Cell) :
    ∃ q : ℚ, fillnaCell (toNumericCell c) (Cell.n 1) = Cell.n q := by
  rcases toNumericCell_shape c with h | ⟨q, h⟩
  · exact ⟨1, by rw [h]; rfl⟩
  · exact ⟨q, by rw [h]; rfl⟩

/-- Inversion of `prepareRow`: what a retained cleaned row looks like in terms
of its source row. -/
theorem prepareRow_inv {r : Row1} {c : CleanRow} (h : prepareRow r = some c) :
    ∃ dpv rtv : ℚ,
      toNumericCell r.discounted_price = Cell.n dpv ∧
      toNumericCell r.rating = Cell.n rtv ∧
      c.discounted_price = Cell.n dpv ∧
      c.rating = Cell.n rtv ∧
      c.price_range = priceRangeOf dpv ∧
      c.discount_percentage =
        fillnaCell (toNumericCell r.discount_percentage) (Cell.n 0) ∧
      (∃ rcq : ℚ, c.rating_count = Cell.n rcq ∧ 1 ≤ rcq) ∧
      (r.rating_count = Cell.na → c.rating_count = Cell.n 1) ∧
      (r.discount_percentage = Cell.na → c.discount_percentage = Cell.n 0) ∧
      c.category_level_1 = r.category_level_1 ∧
      c.main_category = fillnaCell r.category_level_1 r.category := by
  simp only [prepareRow] at h
  rcases hdp : toNumericCell r.discounted_price with _ | sv | dpv <;> rw [hdp] at h
  · exact absurd h (by simp)
  · exact absurd h (by simp)
  rcases hrt : toNumericCell r.rating with _ | sv2 | rtv <;> rw [hrt] at h
  · exact absurd h (by simp)
  · exact absurd h (by simp)
  simp only [Option.some.injEq] at h
  subst h
  refine ⟨dpv, rtv, rfl, rfl, rfl, rfl, rfl, rfl, ?_, ?_, ?_, rfl, rfl⟩
  · obtain ⟨q0, hq0⟩ := coerceFillOne r.rating_count
    rw [hq0]
    exact ⟨max q0 1, rfl, le_max_right q0 1⟩
  · intro hna
    rw [hna]
    simp [toNumericCell, fillnaCell]
  · intro hna
    rw [hna]
    simp [toNumericCell, fillnaCell]

/-- C5: for every well-formed currency string (currency symbol, optional
thousands separators, parsable decimal number), `to_euro` returns the parsed
number divided by 95, and any non-string cell passes through completely
unchanged, with no division by 95. -/
theorem to_euro_roundtrip (v : String) (q : ℚ)
    (h : pyFloat? (stripCurrency v) = some q) :
    to_euro (Cell.s v) = Except.ok (Cell.n (q / 95)) ∧
    (∀ p : ℚ, to_euro (Cell.n p) = Except.ok (Cell.n p)) ∧
    to_euro Cell.na = Except.ok Cell.na := by
  refine ⟨?_, fun p => rfl, rfl⟩
  simp only [to_euro, clean_price, h]
  rfl

/-- C5 witness: `"₹1,234.50"` normalizes to `1234.50 / 95`. -/
theorem to_euro_roundtrip_witness :
    pyFloat? (stripCurrency "₹1,234.50") = some (2469 / 2) ∧
    to_euro (Cell.s "₹1,234.50") = Except.ok (Cell.n (2469 / 2 / 95)) := by
  have h : pyFloat? (stripCurrency "₹1,234.50") = some (2469 / 2) := by
    with_unfolding_all rfl
  exact ⟨h, (to_euro_roundtrip "₹1,234.50" (2469 / 2) h).1⟩

/-- C7: a currency string that is unparsable after stripping, or an
unparsable percentage string, makes the strict normalization pass of
`load_data` return an error that aborts the whole load; the unparsable
currency text is not coerced to zero. -/
theorem strict_parse_aborts :
    clean_price (Cell.s "₹12a") = Except.error () ∧
    load_data [badPriceRaw] = Except.error () ∧
    load_data [badPctRaw] = Except.error () := by
  refine ⟨by with_unfolding_all rfl, by with_unfolding_all rfl,
    by with_unfolding_all rfl⟩

/-- C8: on an input frame with zero rows the cleaning, bucketing and
aggregation stages return empty frames and the top-line mean statistics are
NaN (`none`); nothing fails. -/
theorem empty_input_no_error :
    prepare_data [] = [] ∧
    categoryAnalysisStats (prepare_data []) = [] ∧
    comparativeStats (prepare_data []) = [] ∧
    overallMean (prepare_data []) (fun r => r.discounted_price) = none ∧
    overallMean (prepare_data []) (fun r => r.rating) = none ∧
    overallMean (prepare_data []) (fun r => r.discount_percentage) = none :=
  ⟨rfl, rfl, rfl, rfl, rfl, rfl⟩

/-- C3 counterexample: a value equal to the lowest stated boundary of each
bucket set (price 0, discount 0, rating 0) gets a missing bucket label, not
the first bucket label: the bins are left-exclusive. -/
theorem bucket_lower_edge_counterexample :
    priceRangeOf 0 = none ∧
    discountRangeOf 0 = none ∧
    ratingCategoryOf 0 = none := by
  with_unfolding_all decide

/-- C3 (amended): the bucketizer bins are left-exclusive and right-inclusive:
a value equal to the lowest stated boundary (or below it) gets a missing
bucket label, a value strictly above the outermost finite boundary
(discount above 100, rating above 5) gets a missing bucket label and is never
clamped into an edge bucket, and only values strictly inside the first
interval get the first label. -/
theorem bucket_boundary_semantics (v : ℚ) :
    (v ≤ 0 → priceRangeOf v = none) ∧
    (v ≤ 0 → discountRangeOf v = none) ∧
    (v ≤ 0 → ratingCategoryOf v = none) ∧
    (100 < v → discountRangeOf v = none) ∧
    (5 < v → ratingCategoryOf v = none) ∧
    (0 < v → v ≤ 20 → priceRangeOf v = some "Molt Baix (<20)") := by
  refine ⟨fun h => ?_, fun h => ?_, fun h => ?_, fun h => ?_, fun h => ?_,
    fun h1 h2 => ?_⟩
  · simp only [priceRangeOf, pdCutTopInf]
    rw [if_neg (by rintro ⟨hc, _⟩; linarith), if_neg (by rintro ⟨hc, _⟩; linarith),
      if_neg (by rintro ⟨hc, _⟩; linarith), if_neg (by rintro ⟨hc, _⟩; linarith),
      if_neg (by intro hc; linarith)]
  · simp only [discountRangeOf, pdCut]
    rw [if_neg (by rintro ⟨hc, _⟩; linarith), if_neg (by rintro ⟨hc, _⟩; linarith),
      if_neg (by rintro ⟨hc, _⟩; linarith), if_neg (by rintro ⟨hc, _⟩; linarith)]
  · simp only [ratingCategoryOf, pdCut]
    rw [if_neg (by rintro ⟨hc, _⟩; linarith), if_neg (by rintro ⟨hc, _⟩; linarith),
      if_neg (by rintro ⟨hc, _⟩; linarith), if_neg (by rintro ⟨hc, _⟩; linarith)]
  · simp only [discountRangeOf, pdCut]
    rw [if_neg (by rintro ⟨_, hc⟩; linarith), if_neg (by rintro ⟨_, hc⟩; linarith),
      if_neg (by rintro ⟨_, hc⟩; linarith), if_neg (by rintro ⟨_, hc⟩; linarith)]
  · simp only [ratingCategoryOf, pdCut]
    rw [if_neg (by rintro ⟨_, hc⟩; linarith), if_neg (by rintro ⟨_, hc⟩; linarith),
      if_neg (by rintro ⟨_, hc⟩; linarith), if_neg (by rintro ⟨_, hc⟩; linarith)]
  · simp only [priceRangeOf, pdCutTopInf]
    rw [if_pos ⟨h1, h2⟩]

/-- C3 witness: the amended boundary semantics at concrete values. -/
theorem bucket_boundary_semantics_witness :
    priceRangeOf (-1) = none ∧
    discountRangeOf 101 = none ∧
    ratingCategoryOf 6 = none ∧
    priceRangeOf 5 = some "Molt Baix (<20)" :=
  ⟨(bucket_boundary_semantics (-1)).1 (by norm_num),
   (bucket_boundary_semantics 101).2.2.2.1 (by norm_num),
   (bucket_boundary_semantics 6).2.2.2.2.1 (by norm_num),
   (bucket_boundary_semantics 5).2.2.2.2.2 (by norm_num) (by norm_num)⟩

/-- C4: every row of the cleaned frame whose `discounted_price` is exactly
200 carries the `price_range` label `"Alt (100-200)"` (inclusive upper bound
of the lower bin), and every row whose `discounted_price` is 200.01 carries
`"Molt Alt (>200)"`. -/
theorem price_200_boundary (rows : List Row1) (c : CleanRow)
    (hc : c ∈ prepare_data rows) :
    (c.discounted_price = Cell.n 200 →
      c.price_range = some "Alt (100-200)") ∧
    (c.discounted_price = Cell.n (20001 / 100) →
      c.price_range = some "Molt Alt (>200)") := by
  obtain ⟨r, hr, hpr⟩ := List.mem_filterMap.mp hc
  obtain ⟨dpv, rtv, _, _, hcdp, _, hcpr, _⟩ := prepareRow_inv hpr
  constructor
  · intro h200
    rw [hcdp] at h200
    injection h200 with h200
    subst h200
    rw [hcpr]
    with_unfolding_all decide
  · intro h200
    rw [hcdp] at h200
    injection h200 with h200
    subst h200
    rw [hcpr]
    with_unfolding_all decide

/-- C4 witness: concrete rows with `discounted_price` 200 and 200.01 run
through `prepare_data`. -/
theorem price_200_boundary_witness :
    c200 ∈ prepare_data [r200, r20001] ∧
    c200.price_range = some "Alt (100-200)" ∧
    c20001 ∈ prepare_data [r200, r20001] ∧
    c20001.price_range = some "Molt Alt (>200)" := by
  have hpd : prepare_data [r200, r20001] = [c200, c20001] := by
    with_unfolding_all rfl
  have hm1 : c200 ∈ prepare_data [r200, r20001] := by
    rw [hpd]; exact List.mem_cons_self _ _
  have hm2 : c20001 ∈ prepare_data [r200, r20001] := by
    rw [hpd]; exact List.mem_cons_of_mem _ (List.mem_cons_self _ _)
  exact ⟨hm1,
    (price_200_boundary [r200, r20001] c200 hm1).1 rfl,
    hm2,
    (price_200_boundary [r200, r20001] c20001 hm2).2 rfl⟩

/-- C10: the marker-size rescaling divides by the range of `rating_count`
over the sample; when all sampled rows share one `rating_count` value
(including a single-row sample) every derived size is not a well-defined
finite number, and when the sample has at least two distinct values every
derived size is a finite number in the fixed visual range `[3, 20]`. -/
theorem size_normalized_spec (rcs : List ℚ) :
    ((∀ x ∈ rcs, ∀ y ∈ rcs, x = y) → ∀ o ∈ sizeNormalized rcs, o = none) ∧
    ((∃ x ∈ rcs, ∃ y ∈ rcs, x ≠ y) →
      ∀ o ∈ sizeNormalized rcs, ∃ v : ℚ, o = some v ∧ 3 ≤ v ∧ v ≤ 20) := by
  constructor
  · intro hall o ho
    unfold sizeNormalized at ho
    cases hmn : rcs.min? with
    | none => rw [hmn] at ho; simp at ho
    | some mn =>
        cases hmx : rcs.max? with
        | none => rw [hmn, hmx] at ho; simp at ho
        | some mx =>
            rw [hmn, hmx] at ho
            simp only [List.mem_map] at ho
            obtain ⟨rc, hrc, hval⟩ := ho
            have hmnm : mn ∈ rcs := List.min?_mem min_choice hmn
            have hmxm : mx ∈ rcs := List.max?_mem max_choice hmx
            rw [if_pos (hall mx hmxm mn hmnm)] at hval
            exact hval.symm
  · rintro ⟨x, hx, y, hy, hxy⟩ o ho
    unfold sizeNormalized at ho
    cases hmn : rcs.min? with
    | none => rw [hmn] at ho; simp at ho
    | some mn =>
        cases hmx : rcs.max? with
        | none => rw [hmn, hmx] at ho; simp at ho
        | some mx =>
            rw [hmn, hmx] at ho
            simp only [List.mem_map] at ho
            obtain ⟨rc, hrc, hval⟩ := ho
            have hmnle : ∀ b ∈ rcs, mn ≤ b := fun b hb =>
              (List.le_min?_iff (fun a b c => le_min_iff) hmn).1 (le_refl mn) b hb
            have hlemx : ∀ b ∈ rcs, b ≤ mx := fun b hb =>
              (List.max?_le_iff (fun a b c => max_le_iff) hmx).1 (le_refl mx) b hb
            have hne : mx ≠ mn := by
              intro he
              apply hxy
              have hx1 : x = mn := le_antisymm (he ▸ hlemx x hx) (hmnle x hx)
              have hy1 : y = mn := le_antisymm (he ▸ hlemx y hy) (hmnle y hy)
              rw [hx1, hy1]
            have hlt : mn < mx :=
              lt_of_le_of_ne (le_trans (hmnle x hx) (hlemx x hx))
                (fun h => hne h.symm)
            rw [if_neg hne] at hval
            refine ⟨(rc - mn) / (mx - mn) * 17 + 3, hval.symm, ?_, ?_⟩
            · have h0 : 0 ≤ (rc - mn) / (mx - mn) :=
                div_nonneg (sub_nonneg.mpr (hmnle rc hrc))
                  (le_of_lt (sub_pos.mpr hlt))
              linarith
            · have h1 : (rc - mn) / (mx - mn) ≤ 1 := by
                rw [div_le_one (sub_pos.mpr hlt)]
                have := hlemx rc hrc
                linarith
              linarith

/-- C10 witness: a constant sample yields no finite sizes; a sample with two
distinct counts yields sizes inside `[3, 20]`. -/
theorem size_normalized_spec_witness :
    (∀ o ∈ sizeNormalized [5, 5, 5], o = none) ∧
    (∀ o ∈ sizeNormalized [1, 2, 4], ∃ v : ℚ, o = some v ∧ 3 ≤ v ∧ v ≤ 20) :=
  ⟨(size_normalized_spec [5, 5, 5]).1 (by with_unfolding_all decide),
   (size_normalized_spec [1, 2, 4]).2 (by with_unfolding_all decide)⟩

/-- C2: the category filter of `load_data` retains exactly the rows whose
`category_level_1` value occurs at least 20 times in the full decomposed
pre-filter frame (the counts are taken on the converted frame, before the
lenient coercion/drop pass of `prepare_data`), and it preserves the relative
order of the retained rows (the output is a sublist of the converted
frame). -/
theorem category_filter_spec (rows : List RawRow) (conv out : List Row1)
    (hconv : rows.mapM convertRow = Except.ok conv)
    (hout : load_data rows = Except.ok out) :
    out.Sublist conv ∧
    ∀ r : Row1, r ∈ out ↔ (r ∈ conv ∧
      ∃ v : String, r.category_level_1 = Cell.s v ∧
        20 ≤ conv.countP (fun r2 => decide (r2.category_level_1 = Cell.s v))) := by
  unfold load_data at hout
  rw [hconv] at hout
  simp only [Except.ok.injEq] at hout
  subst hout
  refine ⟨List.filter_sublist _, fun r => ?_⟩
  rw [List.mem_filter]
  refine and_congr_right fun _ => ?_
  unfold keepRow
  rcases hlv : r.category_level_1 with _ | v | q
  · simp
  · simp only [decide_eq_true_eq]
    constructor
    · intro h
      exact ⟨v, rfl, h⟩
    · rintro ⟨v2, hv2, h⟩
      injection hv2 with hv2
      subst hv2
      exact h
  · simp

/-- C2 witness: on a 20-copy frame every row is retained. -/
theorem category_filter_spec_witness :
    goodConv ∈ wpOut ∧
    ∃ v : String, goodConv.category_level_1 = Cell.s v ∧
      20 ≤ wpOut.countP (fun r2 => decide (r2.category_level_1 = Cell.s v)) := by
  have h := category_filter_spec wpFrame wpOut wpOut
    (by with_unfolding_all rfl) (by with_unfolding_all rfl)
  exact (h.2 goodConv).mp (by with_unfolding_all decide)

/-- C9: every row surviving the category support filter has a non-missing
`category_level_1` (rows whose category fails to decompose are removed by
the frequency filter), and therefore `main_category` always equals
`category_level_1`: the fallback to the raw `category` string is unreachable
in the pipeline as composed. -/
theorem main_category_no_fallback (rows : List RawRow) (out : List Row1)
    (hout : load_data rows = Except.ok out) :
    ∀ c ∈ prepare_data out,
      (∃ v : String, c.category_level_1 = Cell.s v) ∧
      c.main_category = c.category_level_1 := by
  intro c hc
  obtain ⟨r, hr, hpr⟩ := List.mem_filterMap.mp hc
  have hkeep : ∃ conv : List Row1, keepRow conv r = true := by
    unfold load_data at hout
    cases hm : rows.mapM convertRow with
    | error e => rw [hm] at hout; exact absurd hout (by simp)
    | ok conv =>
        rw [hm] at hout
        simp only [Except.ok.injEq] at hout
        subst hout
        exact ⟨conv, (List.mem_filter.mp hr).2⟩
  obtain ⟨conv, hk⟩ := hkeep
  obtain ⟨dpv, rtv, _, _, _, _, _, _, _, _, _, hcl1, hmc⟩ := prepareRow_inv hpr
  unfold keepRow at hk
  rcases hlv : r.category_level_1 with _ | v | q <;> rw [hlv] at hk
  · exact absurd hk (by simp)
  · refine ⟨⟨v, by rw [hcl1, hlv]⟩, ?_⟩
    rw [hmc, hcl1, hlv]
    rfl
  · exact absurd hk (by simp)

/-- C9 witness: the cleaned row of the 20-copy frame keeps its level-1
category as `main_category`. -/
theorem main_category_no_fallback_witness :
    goodClean ∈ prepare_data wpOut ∧
    (∃ v : String, goodClean.category_level_1 = Cell.s v) ∧
    goodClean.main_category = goodClean.category_level_1 := by
  have hm : goodClean ∈ prepare_data wpOut := by with_unfolding_all decide
  exact ⟨hm,
    main_category_no_fallback wpFrame wpOut (by with_unfolding_all rfl)
      goodClean hm⟩

/-- C1 counterexample: a frame whose rows carry the percentage string
`"-5%"` passes the whole pipeline and produces output rows with
`discount_percentage = -5 < 0`, contradicting the claimed
`discount_percentage ≥ 0` invariant. -/
theorem pipeline_negative_discount_counterexample :
    load_data negFrame = Except.ok negOut ∧
    negClean ∈ prepare_data negOut ∧
    negClean.discount_percentage = Cell.n (-5) ∧
    (-5 : ℚ) < 0 := by
  refine ⟨by with_unfolding_all rfl, by with_unfolding_all decide, rfl,
    by norm_num⟩

/-- C1 (amended): every row in the output of the full cleaning pipeline
(`load_data` followed by `prepare_data`) has non-missing `discounted_price`
and `rating` and a `rating_count ≥ 1`; rows whose `discounted_price` or
`rating` coerces to missing are dropped; missing `rating_count` is replaced
by 1; `discount_percentage` is non-missing, missing values being replaced by
0, and it is ≥ 0 provided every numeric `discount_percentage` in the loaded
frame is ≥ 0 (a negative parsed percentage passes through unchanged). -/
theorem pipeline_invariants (rows : List RawRow) (out : List Row1)
    (hout : load_data rows = Except.ok out) :
    (∀ r ∈ out,
      (toNumericCell r.discounted_price = Cell.na ∨
        toNumericCell r.rating = Cell.na) → prepareRow r = none) ∧
    ∀ c ∈ prepare_data out,
      (∃ q : ℚ, c.discounted_price = Cell.n q) ∧
      (∃ q : ℚ, c.rating = Cell.n q) ∧
      (∃ q : ℚ, c.rating_count = Cell.n q ∧ 1 ≤ q) ∧
      (∃ q : ℚ, c.discount_percentage = Cell.n q ∧
        ((∀ r ∈ out, ∀ p : ℚ,
            toNumericCell r.discount_percentage = Cell.n p → 0 ≤ p) →
          0 ≤ q)) ∧
      ∃ r ∈ out, prepareRow r = some c ∧
        (r.rating_count = Cell.na → c.rating_count = Cell.n 1) ∧
        (r.discount_percentage = Cell.na → c.discount_percentage = Cell.n 0) := by
  constructor
  · intro r _ hna
    simp only [prepareRow]
    rcases hna with hna | hna
    · rw [hna]
    · rw [hna]
      rcases toNumericCell_shape r.discounted_price with h | ⟨q, h⟩ <;> rw [h]
  · intro c hc
    obtain ⟨r, hr, hpr⟩ := List.mem_filterMap.mp hc
    obtain ⟨dpv, rtv, _, _, hcdp, hcrt, _, hpct, hrc, hrcna, hpctna, _, _⟩ :=
      prepareRow_inv hpr
    refine ⟨⟨dpv, hcdp⟩, ⟨rtv, hcrt⟩, hrc, ?_, r, hr, hpr, hrcna, hpctna⟩
    rcases toNumericCell_shape r.discount_percentage with h | ⟨p, h⟩
    · rw [h] at hpct
      exact ⟨0, hpct, fun _ => le_refl 0⟩
    · rw [h] at hpct
      exact ⟨p, hpct, fun hnn => hnn r hr p h⟩

/-- C1 witness: the cleaned row of the 20-copy frame satisfies the amended
invariants. -/
theorem pipeline_invariants_witness :
    goodClean ∈ prepare_data wpOut ∧
    (∃ q : ℚ, goodClean.discounted_price = Cell.n q) ∧
    (∃ q : ℚ, goodClean.rating = Cell.n q) ∧
    (∃ q : ℚ, goodClean.rating_count = Cell.n q ∧ 1 ≤ q) ∧
    (∃ q : ℚ, goodClean.discount_percentage = Cell.n q ∧ 0 ≤ q) := by
  have h := pipeline_invariants wpFrame wpOut (by with_unfolding_all rfl)
  have hm : goodClean ∈ prepare_data wpOut := by with_unfolding_all decide
  obtain ⟨hdp, hrt, hrc, ⟨q, hq, himp⟩, _⟩ := h.2 goodClean hm
  have hnn : ∀ r ∈ wpOut, ∀ p : ℚ,
      toNumericCell r.discount_percentage = Cell.n p → 0 ≤ p := by
    intro r hrw p hp
    have hre : r = goodConv := by simpa [wpOut] using hrw
    subst hre
    have h10 : toNumericCell goodConv.discount_percentage = Cell.n 10 := by
      with_unfolding_all rfl
    rw [h10] at hp
    injection hp with hp
    rw [← hp]
    norm_num
  exact ⟨hm, hdp, hrt, hrc, q, hq, himp hnn⟩

/-- Membership in `insertDesc`. -/
theorem mem_insertDesc {x g : GroupStat} {l : List GroupStat} :
    x ∈ insertDesc g l ↔ x = g ∨ x ∈ l := by
  induction l with
  | nil => simp [insertDesc]
  | cons h t ih =>
      unfold insertDesc
      split_ifs with hle
      · simp [List.mem_cons]
      · rw [List.mem_cons, ih, List.mem_cons]
        tauto

/-- The sort `sortDesc` keeps exactly the members of its input. -/
theorem mem_sortDesc {x : GroupStat} {l : List GroupStat} :
    x ∈ sortDesc l ↔ x ∈ l := by
  induction l with
  | nil => simp [sortDesc]
  | cons h t ih =>
      unfold sortDesc
      rw [mem_insertDesc, ih, List.mem_cons]

/-- Insertion by `insertDesc` preserves descending order by `totalRatingCount`. -/
theorem pairwise_insertDesc {g : GroupStat} {l : List GroupStat}
    (h : l.Pairwise fun a b => b.totalRatingCount ≤ a.totalRatingCount) :
    (insertDesc g l).Pairwise fun a b =>
      b.totalRatingCount ≤ a.totalRatingCount := by
  induction l with
  | nil => simp [insertDesc]
  | cons hd t ih =>
      rw [List.pairwise_cons] at h
      obtain ⟨hhd, ht⟩ := h
      unfold insertDesc
      split_ifs with hle
      · refine List.Pairwise.cons ?_ (List.Pairwise.cons hhd ht)
        intro b hb
        rcases List.mem_cons.mp hb with rfl | hb
        · exact hle
        · exact le_trans (hhd b hb) hle
      · refine List.Pairwise.cons ?_ (ih ht)
        intro b hb
        rcases mem_insertDesc.mp hb with rfl | hb
        · exact le_of_not_le hle
        · exact hhd b hb

/-- The sort `sortDesc` produces a list in descending order of `totalRatingCount`. -/
theorem pairwise_sortDesc (l : List GroupStat) :
    (sortDesc l).Pairwise fun a b =>
      b.totalRatingCount ≤ a.totalRatingCount := by
  induction l with
  | nil => simp [sortDesc]
  | cons h t ih =>
      unfold sortDesc
      exact pairwise_insertDesc ih

/-- The aggregate `cat_stats` emits rows in descending order of summed `rating_count`. -/
theorem cat_stats_sorted (rows : List CleanRow) (k : ℕ) :
    (cat_stats rows k).Pairwise fun a b =>
      b.totalRatingCount ≤ a.totalRatingCount := by
  unfold cat_stats
  exact List.Pairwise.sublist (List.take_sublist _ _) (pairwise_sortDesc _)

/-- The aggregate `cat_stats` emits at most `k` groups. -/
theorem cat_stats_length (rows : List CleanRow) (k : ℕ) :
    (cat_stats rows k).length ≤ k := by
  unfold cat_stats
  exact List.length_take_le _ _

/-- C6: both aggregate views group the cleaned rows by `main_category`,
compute per group the mean `rating`, summed `rating_count`, mean
`discounted_price`, mean `discount_percentage` (each rounded to 2 decimals)
and the count of non-null `product_id`; they emit groups in descending order
of summed `rating_count`, one view cutting at the top 15 groups and the
other at the top 12. -/
theorem aggregator_spec (rows : List CleanRow) :
    (∀ g ∈ categoryAnalysisStats rows, aggSpecStat rows g) ∧
    (categoryAnalysisStats rows).Pairwise
      (fun a b => b.totalRatingCount ≤ a.totalRatingCount) ∧
    (categoryAnalysisStats rows).length ≤ 15 ∧
    (∀ g ∈ comparativeStats rows, aggSpecStat rows g) ∧
    (comparativeStats rows).Pairwise
      (fun a b => b.totalRatingCount ≤ a.totalRatingCount) ∧
    (comparativeStats rows).length ≤ 12 := by
  have hstat : ∀ k : ℕ, ∀ g ∈ cat_stats rows k, aggSpecStat rows g := by
    intro k g hg
    unfold cat_stats at hg
    have hg2 := List.take_subset _ _ hg
    rw [mem_sortDesc] at hg2
    obtain ⟨key, hkey, rfl⟩ := List.mem_map.mp hg2
    simp only [aggSpecStat]
    exact ⟨rfl, rfl, rfl, rfl, rfl⟩
  exact ⟨fun g hg => hstat 15 g hg, cat_stats_sorted rows 15,
    cat_stats_length rows 15, fun g hg => hstat 12 g hg,
    cat_stats_sorted rows 12, cat_stats_length rows 12⟩

/-- C6 witness: on a one-row cleaned frame the single group is emitted with
the contracted statistics. -/
theorem aggregator_spec_witness :
    statsFor rows6 (Cell.s "A") ∈ categoryAnalysisStats rows6 ∧
    aggSpecStat rows6 (statsFor rows6 (Cell.s "A")) ∧
    (categoryAnalysisStats rows6).length ≤ 15 ∧
    (comparativeStats rows6).length ≤ 12 := by
  have hm : statsFor rows6 (Cell.s "A") ∈ categoryAnalysisStats rows6 := by
    with_unfolding_all decide
  have h := aggregator_spec rows6
  exact ⟨hm, h.1 _ hm, h.2.2.1, h.2.2.2.2.2⟩

end PRA2
